import Mathlib

/-!
Verification of the log-structured storage engine, MVCC/SSI transaction
system and Raft consensus node of the repository, via a shallow embedding
of the relevant Python code into Lean.

Conventions used throughout:
* Python dicts keyed by strings are embedded as association lists
  (`List (String × β)`) with insertion-order upsert, or as total/partial
  functions when the code never enumerates their keys.
* Wall-clock timestamps (`time.time()`) are embedded as `Nat` values that
  are threaded in explicitly.
* Byte strings are embedded as `List Nat` (one `Nat` per byte); the UTF-8
  byte length of a Python string is `strBytes`.
-/

/-- UTF-8 byte length of a string: models Python `len(s.encode('utf-8'))`. -/
def strBytes (s : String) : Nat := (s.data.map Char.utf8Size).sum

/-- Python-dict upsert on an association list: an existing key keeps its
position, a new key is appended (insertion order). -/
def dUpsert {β : Type} (d : List (String × β)) (k : String) (v : β) :
    List (String × β) :=
  if d.any (fun p => p.1 == k) then
    d.map (fun p => if p.1 == k then (k, v) else p)
  else d ++ [(k, v)]

/-- Python `dict.pop(k, None)`: remove the entry for `k` if present. -/
def dPop {β : Type} (d : List (String × β)) (k : String) : List (String × β) :=
  d.filter (fun p => p.1 != k)

/-- Python `dict.get(k)`. -/
def dGet {β : Type} (d : List (String × β)) (k : String) : Option β :=
  List.lookup k d

/-- Pointwise update of a function-embedded map. -/
def fupd {κ α : Type} [DecidableEq κ] (m : κ → α) (k : κ) (v : α) : κ → α :=
  fun x => if x = k then v else m x

/-! ## Bloom filter (`03_storage_engine/index.py`, class `BloomFilter`)

The bit array `self.bits` is embedded as a function `Nat → Bool`; the two
base hashes `hash(key)` and `hash(key + '_salt')` are parameters
`h1 h2 : String → Int` (Python `hash` is signed). -/

structure BloomFilter where
  size : Nat
  numHashes : Nat
  bits : Nat → Bool

/-- The `i`-th probe position `(h1 + i*h2) % size` (Python `%` on a
positive modulus is `Int.emod`, always non-negative). -/
def bloomIdx (h1 h2 : String → Int) (size : Nat) (key : String) (i : Nat) : Nat :=
  ((h1 key + (i : Int) * h2 key).emod (size : Int)).toNat

/-- `BloomFilter.add`: set the bit at every probe position of `key`. -/
def bloomAdd (h1 h2 : String → Int) (bf : BloomFilter) (key : String) :
    BloomFilter :=
  { bf with
    bits := fun j =>
      bf.bits j || (List.range bf.numHashes).any
        (fun i => j == bloomIdx h1 h2 bf.size key i) }

/-- `BloomFilter.might_contain`: all probe positions of `key` are set. -/
def mightContain (h1 h2 : String → Int) (bf : BloomFilter) (key : String) :
    Bool :=
  (List.range bf.numHashes).all
    (fun i => bf.bits (bloomIdx h1 h2 bf.size key i))

/-- `BloomFilter.rebuild`: clear all bits, then `add` every given key. -/
def bloomRebuild (h1 h2 : String → Int) (bf : BloomFilter)
    (keys : List String) : BloomFilter :=
  keys.foldl (fun b k => bloomAdd h1 h2 b k) { bf with bits := fun _ => false }

/-- Operations a client can perform on a `BloomFilter` after an `add`. -/
inductive BloomOp where
  | addOp (key : String)
  | rebuildOp (keys : List String)
deriving DecidableEq

def applyBloomOp (h1 h2 : String → Int) (bf : BloomFilter) :
    BloomOp → BloomFilter
  | .addOp k => bloomAdd h1 h2 bf k
  | .rebuildOp ks => bloomRebuild h1 h2 bf ks

def applyBloomOps (h1 h2 : String → Int) (bf : BloomFilter)
    (ops : List BloomOp) : BloomFilter :=
  ops.foldl (applyBloomOp h1 h2) bf

lemma mightContain_bloomAdd_self (h1 h2 : String → Int) (bf : BloomFilter)
    (k : String) : mightContain h1 h2 (bloomAdd h1 h2 bf k) k = true := by
  simp only [mightContain, bloomAdd, List.all_eq_true, List.mem_range]
  intro i hi
  simp only [Bool.or_eq_true, List.any_eq_true, List.mem_range]
  exact Or.inr ⟨i, hi, by simp⟩

lemma mightContain_bloomAdd_mono (h1 h2 : String → Int) (bf : BloomFilter)
    (k k' : String) (h : mightContain h1 h2 bf k = true) :
    mightContain h1 h2 (bloomAdd h1 h2 bf k') k = true := by
  simp only [mightContain, bloomAdd, List.all_eq_true, List.mem_range] at h ⊢
  intro i hi
  simp only [Bool.or_eq_true]
  exact Or.inl (h i hi)

lemma mightContain_foldl_add (h1 h2 : String → Int) (keys : List String)
    (k : String) :
    ∀ b : BloomFilter, mightContain h1 h2 b k = true →
      mightContain h1 h2 (keys.foldl (fun b k' => bloomAdd h1 h2 b k') b) k
        = true := by
  induction keys with
  | nil => intro b hb; simpa using hb
  | cons x xs ih =>
      intro b hb
      exact ih _ (mightContain_bloomAdd_mono h1 h2 b k x hb)

lemma mightContain_foldl_mem (h1 h2 : String → Int) (keys : List String)
    (k : String) (hk : k ∈ keys) :
    ∀ b : BloomFilter,
      mightContain h1 h2 (keys.foldl (fun b k' => bloomAdd h1 h2 b k') b) k
        = true := by
  induction keys with
  | nil => cases hk
  | cons x xs ih =>
      intro b
      rcases List.mem_cons.mp hk with rfl | hmem
      · exact mightContain_foldl_add h1 h2 xs k _
          (mightContain_bloomAdd_self h1 h2 b k)
      · exact ih hmem _

lemma mightContain_bloomRebuild (h1 h2 : String → Int) (bf : BloomFilter)
    (keys : List String) (k : String) (hk : k ∈ keys) :
    mightContain h1 h2 (bloomRebuild h1 h2 bf keys) k = true :=
  mightContain_foldl_mem h1 h2 keys k hk _

/-- C9: once `add(k)` has run, `might_contain(k)` stays true through every
further `add` and through every `rebuild` whose key set contains `k`
(contrapositive: it can only turn false through a rebuild excluding `k`). -/
theorem bloom_no_false_negatives (h1 h2 : String → Int) (bf : BloomFilter)
    (k : String) (ops : List BloomOp)
    (hre : ∀ ks, BloomOp.rebuildOp ks ∈ ops → k ∈ ks) :
    mightContain h1 h2
      (applyBloomOps h1 h2 (bloomAdd h1 h2 bf k) ops) k = true := by
  have main : ∀ (ops' : List BloomOp) (b : BloomFilter),
      (∀ ks, BloomOp.rebuildOp ks ∈ ops' → k ∈ ks) →
      mightContain h1 h2 b k = true →
      mightContain h1 h2 (applyBloomOps h1 h2 b ops') k = true := by
    intro ops'
    induction ops' with
    | nil => intro b _ hb; simpa [applyBloomOps] using hb
    | cons op rest ih =>
        intro b hre' hb
        have hstep : mightContain h1 h2 (applyBloomOp h1 h2 b op) k = true := by
          cases op with
          | addOp k' => exact mightContain_bloomAdd_mono h1 h2 b k k' hb
          | rebuildOp ks =>
              exact mightContain_bloomRebuild h1 h2 b ks k
                (hre' ks (List.mem_cons_self _ _))
        have hrest : ∀ ks, BloomOp.rebuildOp ks ∈ rest → k ∈ ks := by
          intro ks hks; exact hre' ks (List.mem_cons_of_mem _ hks)
        simpa [applyBloomOps] using ih (applyBloomOp h1 h2 b op) hrest hstep
  exact main ops (bloomAdd h1 h2 bf k) hre
    (mightContain_bloomAdd_self h1 h2 bf k)

def bloomWitnessOps : List BloomOp :=
  [BloomOp.addOp "other", BloomOp.rebuildOp ["k", "other"]]

/-- Witness for C9 at a concrete filter, hash pair and op list. -/
theorem bloom_no_false_negatives_witness :
    (∀ ks, BloomOp.rebuildOp ks ∈ bloomWitnessOps → "k" ∈ ks) ∧
    mightContain (fun s => (strBytes s : Int)) (fun _ => -3)
      (applyBloomOps (fun s => (strBytes s : Int)) (fun _ => -3)
        (bloomAdd (fun s => (strBytes s : Int)) (fun _ => -3)
          ⟨10000, 3, fun _ => false⟩ "k")
        bloomWitnessOps) "k" = true := by
  constructor
  · intro ks hks
    simp only [bloomWitnessOps, List.mem_cons, List.not_mem_nil, or_false] at hks
    rcases hks with h | h
    · cases h
    · cases h; decide
  · exact bloom_no_false_negatives (fun s => (strBytes s : Int)) (fun _ => -3)
      ⟨10000, 3, fun _ => false⟩ "k" bloomWitnessOps
      (by
        intro ks hks
        simp only [bloomWitnessOps, List.mem_cons, List.not_mem_nil,
          or_false] at hks
        rcases hks with h | h
        · cases h
        · cases h; decide)

/-! ## Segmented append log (`StorageEngine/log_store.py`)

A segment record is `{ key_len:u32, value_len:u32, deleted:u8, key, value }`;
`value = none` embeds a tombstone (`deleted=1`, empty value), exactly the
encoding of `LogSegment.append`. A segment file is the list of its records;
byte offsets are recovered from the record sizes. -/

structure SegRecord where
  key : String
  value : Option String
deriving DecidableEq

/-- On-disk size of one record: 9 header bytes + key bytes + value bytes. -/
def recSize (r : SegRecord) : Nat :=
  9 + strBytes r.key + (match r.value with | some v => strBytes v | none => 0)

/-- Size of a segment file, the sum of its record sizes (`self.size`). -/
def segFileSize (recs : List SegRecord) : Nat := (recs.map recSize).sum

/-- `LogSegment.read_at(offset)`: at a record's start offset it returns
`(key, value?, deleted)` exactly as the Python does; with fewer than 9
bytes left it returns `(None, None, False)`. An offset strictly inside a
record would read garbage bytes; that case is left unmodelled (`none`). -/
def readAtRecs : List SegRecord → Nat → Option (Option String × Option String × Bool)
  | [], _ => some (none, none, false)
  | r :: rest, off =>
    if off = 0 then
      some (match r.value with
            | none => (some r.key, none, true)
            | some v => (some r.key, some v, false))
    else if recSize r ≤ off then readAtRecs rest (off - recSize r)
    else none

structure LogSegment where
  segmentId : Nat
  recs : List SegRecord
deriving DecidableEq

def segSize (s : LogSegment) : Nat := segFileSize s.recs

def SEGMENT_MAX_SIZE : Nat := 1024 * 1024

/-- `LogSegment.is_full`: `self.size >= SEGMENT_MAX_SIZE`. -/
def segIsFull (s : LogSegment) : Bool := SEGMENT_MAX_SIZE ≤ segSize s

/-- `LogStore`: the segment list plus the id of the active segment.
Python holds an object reference to the active segment; segment ids are
unique in every state this development walks through (up to the very
collision state exhibited for C8, where no further step is taken), so the
id identifies the object. -/
structure LogStore where
  segments : List LogSegment
  activeId : Nat
deriving DecidableEq

def findSeg (segs : List LogSegment) (i : Nat) : Option LogSegment :=
  segs.find? (fun s => s.segmentId == i)

/-- Replace the (first) segment with id `i` — models mutation of the
Python segment object, sound while ids are unique. -/
def updateSeg (segs : List LogSegment) (i : Nat)
    (f : LogSegment → LogSegment) : List LogSegment :=
  match segs with
  | [] => []
  | s :: rest =>
      if s.segmentId = i then f s :: rest else s :: updateSeg rest i f

def activeSeg (st : LogStore) : Option LogSegment :=
  findSeg st.segments st.activeId

def activeIsFull (st : LogStore) : Bool :=
  match activeSeg st with
  | some s => segIsFull s
  | none => false

/-- `LogStore._load_segments` over the files found on disk (pairs of
segment id parsed from the file name, and file contents), in sorted
name order; an empty directory gets a fresh segment 0. -/
def logStoreInit (files : List (Nat × List SegRecord)) : LogStore :=
  match files with
  | [] => ⟨[⟨0, []⟩], 0⟩
  | f :: fs =>
      ⟨(f :: fs).map (fun p => ⟨p.1, p.2⟩), ((f :: fs).getLastD f).1⟩

/-- `LogStore._create_new_segment`: the new id is `len(self.segments)`;
returns the updated store and the id created. -/
def createNewSegment (st : LogStore) : LogStore × Nat :=
  let sid := st.segments.length
  (⟨st.segments ++ [⟨sid, []⟩], sid⟩, sid)

/-- `LogStore.put`: roll the active segment if full, then append; returns
the updated store and the `(segment_id, offset)` of the written record. -/
def logPut (st : LogStore) (key : String) (value : Option String) :
    LogStore × Nat × Nat :=
  let st1 := if activeIsFull st then (createNewSegment st).1 else st
  let off := match activeSeg st1 with | some s => segSize s | none => 0
  (⟨updateSeg st1.segments st1.activeId
      (fun s => ⟨s.segmentId, s.recs ++ [⟨key, value⟩]⟩), st1.activeId⟩,
   st1.activeId, off)

/-- `LogStore.get_segments_to_compact(threshold=2)`:
`[s for s in segments[:-1] if s != active][:2]`. -/
def segmentsToCompact (st : LogStore) : List LogSegment :=
  ((st.segments.dropLast).filter (fun s => s.segmentId != st.activeId)).take 2

/-- `LogStore.replace_segments(old, new)`: drop the old ids, then insert
the new segment at the position the Python loop computes (before the
first segment with a larger id, else at the end). -/
def replaceSegments (st : LogStore) (olds : List LogSegment)
    (newSeg : LogSegment) : LogStore :=
  let oldIds := olds.map (·.segmentId)
  let kept := st.segments.filter (fun s => !(oldIds.contains s.segmentId))
  let pos := kept.findIdx (fun s => newSeg.segmentId < s.segmentId)
  ⟨kept.insertIdx pos newSeg, st.activeId⟩

/-- C10: `read_at` is total at and past the end of the segment file —
with fewer than 9 header bytes available it returns `(None, None, False)`
rather than raising. -/
theorem read_at_past_end_total (recs : List SegRecord) (off : Nat)
    (h : segFileSize recs ≤ off) :
    readAtRecs recs off = some (none, none, false) := by
  induction recs generalizing off with
  | nil => simp [readAtRecs]
  | cons r rest ih =>
      have hsz : segFileSize (r :: rest) = recSize r + segFileSize rest := by
        simp [segFileSize]
      have h9 : 9 ≤ recSize r := by
        simp [recSize]; omega
      have hr : recSize r ≤ off := by omega
      have hoff : off ≠ 0 := by omega
      rw [readAtRecs]
      simp only [hoff, if_false, hr, if_true]
      exact ih (off - recSize r) (by omega)

/-- Witness for C10: one record, offset exactly at the end of the file. -/
theorem read_at_past_end_total_witness :
    segFileSize [⟨"a", some "1"⟩] ≤ 11 ∧
    readAtRecs [⟨"a", some "1"⟩] 11 = some (none, none, false) :=
  ⟨by decide, read_at_past_end_total [⟨"a", some "1"⟩] 11 (by decide)⟩

/-! ## Compactor (`03_storage_engine/compaction.py`, class `Compactor`) -/

/-- Fold one segment's records into the merge dict: a put overrides, a
tombstone removes (`Compactor.compact`'s inner loop). -/
def mergeSegment (d : List (String × String)) (recs : List SegRecord) :
    List (String × String) :=
  recs.foldl
    (fun d r =>
      match r.value with
      | none => dPop d r.key
      | some v => dUpsert d r.key v) d

/-- Python string comparison: lexicographic on code points. -/
def charListLt : List Char → List Char → Bool
  | [], [] => false
  | [], _ :: _ => true
  | _ :: _, [] => false
  | c :: cs, d :: ds =>
      if c.toNat < d.toNat then true
      else if d.toNat < c.toNat then false
      else charListLt cs ds

def strLt (a b : String) : Bool := charListLt a.data b.data

/-- Ascending insertion into a sorted list under `strLt`. -/
def insertSorted (k : String) : List String → List String
  | [] => [k]
  | x :: xs => if strLt x k then x :: insertSorted k xs else k :: x :: xs

/-- Python `sorted` on a list of (distinct) string keys. -/
def sortStrings (l : List String) : List String := l.foldr insertSorted []

/-- Minimum of a list of segment ids (`min(s.segment_id for s in segments)`,
the list is non-empty when used). -/
def minId (segs : List LogSegment) : Nat :=
  match segs.map (·.segmentId) with
  | [] => 0
  | i :: is => is.foldl Nat.min i

/-- `Compactor.compact`: pick ≤ 2 inactive segments, merge them, write the
surviving keys sorted under the minimum input id, and atomically replace
the inputs. Returns the updated store and the Python return value. -/
def compactStore (st : LogStore) : LogStore × Bool :=
  let segs := segmentsToCompact st
  if segs.length < 2 then (st, false)
  else
    let merged := segs.foldl (fun d s => mergeSegment d s.recs) []
    if merged.isEmpty then (st, false)
    else
      let newId := minId segs
      let sortedKeys := sortStrings (merged.map Prod.fst)
      let newRecs : List SegRecord :=
        sortedKeys.map (fun k => ⟨k, dGet merged k⟩)
      (replaceSegments st segs ⟨newId, newRecs⟩, true)

/-! ## Storage engine (`03_storage_engine/engine.py`, class `StorageEngine`)

The hash index (`index.py`, class `HashIndex`) is the association list
`index`; the engine's bloom filter has `size=100000, num_hashes=4`. -/

structure StorageEngine where
  logStore : LogStore
  index : List (String × (Nat × Nat))
  bloom : BloomFilter

/-- Records of a segment paired with their byte offsets
(`LogSegment.iterate`). -/
def recsWithOffsets : Nat → List SegRecord → List (Nat × SegRecord)
  | _, [] => []
  | off, r :: rest => (off, r) :: recsWithOffsets (off + recSize r) rest

/-- One segment's contribution to `HashIndex.rebuild`: later records
overwrite earlier ones, tombstones remove the entry. -/
def indexRebuildSeg (idx : List (String × (Nat × Nat))) (seg : LogSegment) :
    List (String × (Nat × Nat)) :=
  (recsWithOffsets 0 seg.recs).foldl
    (fun idx p =>
      match p.2.value with
      | none => dPop idx p.2.key
      | some _ => dUpsert idx p.2.key (seg.segmentId, p.1)) idx

/-- `HashIndex.rebuild` over all segments of a store. -/
def indexRebuild (st : LogStore) : List (String × (Nat × Nat)) :=
  st.segments.foldl indexRebuildSeg []

/-- `StorageEngine.__init__` over the segment files found on disk:
load the segments, rebuild the hash index by a full scan, and rebuild the
bloom filter from the index's keys. -/
def engineInit (h1 h2 : String → Int) (files : List (Nat × List SegRecord)) :
    StorageEngine :=
  let ls := logStoreInit files
  let idx := indexRebuild ls
  ⟨ls, idx,
   bloomRebuild h1 h2 ⟨100000, 4, fun _ => false⟩ (idx.map (·.1))⟩

/-- `StorageEngine.put`. -/
def enginePut (h1 h2 : String → Int) (e : StorageEngine) (k v : String) :
    StorageEngine :=
  let r := logPut e.logStore k (some v)
  ⟨r.1, dUpsert e.index k r.2, bloomAdd h1 h2 e.bloom k⟩

/-- `StorageEngine.delete`: write a tombstone, drop the index entry
(the bloom filter is left untouched). -/
def engineDelete (e : StorageEngine) (k : String) : StorageEngine :=
  ⟨(logPut e.logStore k none).1, dPop e.index k, e.bloom⟩

/-- `StorageEngine.get`: bloom check, hash-index lookup, `read_at`, then
verify the key matches and the record is live. -/
def engineGet (h1 h2 : String → Int) (e : StorageEngine) (k : String) :
    Option String :=
  if !(mightContain h1 h2 e.bloom k) then none
  else
    match dGet e.index k with
    | none => none
    | some loc =>
        match findSeg e.logStore.segments loc.1 with
        | none => none
        | some seg =>
            match readAtRecs seg.recs loc.2 with
            | some (keyRead, value, deleted) =>
                if deleted || !(keyRead == some k) then none else value
            | none => none

/-- `StorageEngine.force_compaction`: runs the compactor on the log store;
the hash index and bloom filter of the engine are not touched. -/
def engineForceCompaction (e : StorageEngine) : StorageEngine × Bool :=
  let r := compactStore e.logStore
  (⟨r.1, e.index, e.bloom⟩, r.2)

/-! ## Concrete storage-engine traces for C1 and C8

A segment only becomes inactive (and thus compactable) once a later `put`
overflows it past `SEGMENT_MAX_SIZE` (1 MiB), so the traces use a 1 MiB
filler value `bigS`. Its contents are never inspected, only its length. -/

def h0 : String → Int := fun _ => 0

def bigS : String := String.mk (List.replicate 1048576 'a')

lemma strBytes_mk_replicate (n : Nat) (c : Char) :
    strBytes (String.mk (List.replicate n c)) = n * c.utf8Size := by
  simp [strBytes, List.map_replicate, List.sum_replicate, smul_eq_mul]

lemma strBytes_bigS : strBytes bigS = 1048576 := by
  rw [bigS, strBytes_mk_replicate, show ('a').utf8Size = 1 from by decide]

/-- C1 trace, session one, parameterized by the filler value: five puts
from an empty directory; the two filler puts overflow segments 0 and 1. -/
def c1SessionWith (big : String) : StorageEngine :=
  enginePut h0 h0
    (enginePut h0 h0
      (enginePut h0 h0
        (enginePut h0 h0
          (enginePut h0 h0 (engineInit h0 h0 []) "w" big)
          "b" "1")
        "x" big)
      "a" "2")
    "c" "3"

/-- The segment files session one leaves on disk. -/
def c1FilesWith (big : String) : List (Nat × List SegRecord) :=
  [(0, [⟨"w", some big⟩]),
   (1, [⟨"b", some "1"⟩, ⟨"x", some big⟩]),
   (2, [⟨"a", some "2"⟩, ⟨"c", some "3"⟩])]

def c1Session : StorageEngine := c1SessionWith bigS

def c1Files : List (Nat × List SegRecord) := c1FilesWith bigS

/-- C1 trace, session two: restart over the files of session one. -/
def c1Restarted : StorageEngine := engineInit h0 h0 c1Files

/-- C1 trace, after `force_compaction` in session two. -/
def c1Compacted : StorageEngine := (engineForceCompaction c1Restarted).1

lemma c1SessionWith_logStore (B : String) (hB : strBytes B = 1048576) :
    (c1SessionWith B).logStore =
      ⟨[⟨0, [⟨"w", some B⟩]⟩,
        ⟨1, [⟨"b", some "1"⟩, ⟨"x", some B⟩]⟩,
        ⟨2, [⟨"a", some "2"⟩, ⟨"c", some "3"⟩]⟩], 2⟩ := by
  simp [c1SessionWith, enginePut, engineInit, logStoreInit, logPut,
    activeIsFull, activeSeg, findSeg, createNewSegment, updateSeg,
    segIsFull, segSize, segFileSize, recSize, SEGMENT_MAX_SIZE, hB,
    indexRebuild, indexRebuildSeg, recsWithOffsets, dUpsert, dPop,
    show strBytes "w" = 1 from by decide,
    show strBytes "b" = 1 from by decide,
    show strBytes "1" = 1 from by decide,
    show strBytes "x" = 1 from by decide,
    show strBytes "a" = 1 from by decide,
    show strBytes "2" = 1 from by decide,
    show strBytes "c" = 1 from by decide,
    show strBytes "3" = 1 from by decide]

lemma c1Restarted_eq (B : String) :
    engineInit h0 h0 (c1FilesWith B) =
      ⟨⟨[⟨0, [⟨"w", some B⟩]⟩,
         ⟨1, [⟨"b", some "1"⟩, ⟨"x", some B⟩]⟩,
         ⟨2, [⟨"a", some "2"⟩, ⟨"c", some "3"⟩]⟩], 2⟩,
       [("w", (0, 0)), ("b", (1, 0)), ("x", (1, 11)),
        ("a", (2, 0)), ("c", (2, 11))],
       bloomRebuild h0 h0 ⟨100000, 4, fun _ => false⟩
         ["w", "b", "x", "a", "c"]⟩ := by
  simp [engineInit, c1FilesWith, logStoreInit, List.getLastD,
    indexRebuild, indexRebuildSeg, recsWithOffsets, dUpsert, dPop,
    recSize,
    show strBytes "w" = 1 from by decide,
    show strBytes "b" = 1 from by decide,
    show strBytes "1" = 1 from by decide,
    show strBytes "x" = 1 from by decide,
    show strBytes "a" = 1 from by decide,
    show strBytes "2" = 1 from by decide,
    show strBytes "c" = 1 from by decide,
    show strBytes "3" = 1 from by decide]

lemma c1_bloom_b :
    mightContain h0 h0
      (bloomRebuild h0 h0 ⟨100000, 4, fun _ => false⟩
        ["w", "b", "x", "a", "c"]) "b" = true :=
  mightContain_bloomRebuild h0 h0 _ _ "b" (by simp)

lemma c1_get_restarted (B : String) :
    engineGet h0 h0 (engineInit h0 h0 (c1FilesWith B)) "b" = some "1" := by
  rw [c1Restarted_eq B]
  simp [engineGet, c1_bloom_b, dGet, List.lookup, findSeg, List.find?,
    readAtRecs]

lemma c1_get_compacted (B : String) :
    engineGet h0 h0
      ((engineForceCompaction (engineInit h0 h0 (c1FilesWith B))).1) "b"
      = none := by
  rw [c1Restarted_eq B]
  simp [engineForceCompaction, compactStore, segmentsToCompact,
    List.dropLast, mergeSegment, dUpsert, dPop, minId, sortStrings,
    insertSorted, dGet, List.lookup, replaceSegments, List.insertIdx,
    engineGet, c1_bloom_b, findSeg, List.find?, readAtRecs, Nat.min_def,
    show strLt "x" "b" = false from by decide,
    show strLt "b" "w" = true from by decide,
    show strLt "x" "w" = false from by decide]

/-- C1 (code bug): the puts of session one leave exactly the files of
`c1Files` on disk; after restart `get("b") = "1"` as the claim states, but
after `force_compaction` has replaced segments 0 and 1, `get("b")` returns
`None` — the hash index still holds the pre-compaction
`(segment_id, offset)` pairs, which compaction invalidated. -/
theorem engine_get_after_compaction_bug :
    c1Session.logStore.segments = (logStoreInit c1Files).segments ∧
    engineGet h0 h0 c1Restarted "b" = some "1" ∧
    engineGet h0 h0 c1Compacted "b" = none := by
  refine ⟨?_, c1_get_restarted bigS, c1_get_compacted bigS⟩
  rw [show c1Session.logStore = _ from c1SessionWith_logStore bigS strBytes_bigS]
  simp [c1Files, c1FilesWith, logStoreInit, List.getLastD]

/-- C8 trace: three segment files on disk (the active one full), then one
simple compaction. -/
def c8FilesWith (big : String) : List (Nat × List SegRecord) :=
  [(0, [⟨"b", some "1"⟩]),
   (1, [⟨"a", some "2"⟩]),
   (2, [⟨"c", some big⟩])]

def c8Files : List (Nat × List SegRecord) := c8FilesWith bigS

def c8AfterCompact : LogStore := (compactStore (logStoreInit c8Files)).1

lemma c8_compact_state (B : String) :
    (compactStore (logStoreInit (c8FilesWith B))) =
      (⟨[⟨0, [⟨"a", some "2"⟩, ⟨"b", some "1"⟩]⟩,
         ⟨2, [⟨"c", some B⟩]⟩], 2⟩, true) := by
  simp [compactStore, c8FilesWith, logStoreInit, List.getLastD,
    segmentsToCompact, List.dropLast, mergeSegment, dUpsert, dPop, minId,
    sortStrings, insertSorted, dGet, List.lookup, replaceSegments,
    List.insertIdx, findSeg, List.find?, Nat.min_def,
    show strLt "a" "b" = true from by decide]

lemma c8_active_full (B : String) (hB : strBytes B = 1048576) :
    activeIsFull (⟨[⟨0, [⟨"a", some "2"⟩, ⟨"b", some "1"⟩]⟩,
      ⟨2, [⟨"c", some B⟩]⟩], 2⟩ : LogStore) = true := by
  simp [activeIsFull, activeSeg, findSeg, List.find?, segIsFull, segSize,
    segFileSize, recSize, hB, SEGMENT_MAX_SIZE,
    show strBytes "c" = 1 from by decide]

/-- C8 (code bug): after the compaction has merged segments 0 and 1 into a
new segment 0, the store holds segments with ids `[0, 2]` and a full
active segment, so the next `put` rolls the active segment; but
`_create_new_segment` assigns id `len(segments) = 2`, which collides with
the id of the existing (active!) segment 2 — the new-segment ids are
neither fresh nor strictly increasing. The compaction output id is
`min(0, 1) = 0`, confirming the min-id part of the claim. -/
theorem segment_id_collision_after_compaction :
    (compactStore (logStoreInit c8Files)).2 = true ∧
    c8AfterCompact.segments.map (·.segmentId) = [0, 2] ∧
    activeIsFull c8AfterCompact = true ∧
    (createNewSegment c8AfterCompact).2 = 2 ∧
    (createNewSegment c8AfterCompact).1.segments.map (·.segmentId)
      = [0, 2, 2] := by
  have hst : c8AfterCompact =
      ⟨[⟨0, [⟨"a", some "2"⟩, ⟨"b", some "1"⟩]⟩,
        ⟨2, [⟨"c", some bigS⟩]⟩], 2⟩ := by
    show (compactStore (logStoreInit (c8FilesWith bigS))).1 = _
    rw [c8_compact_state bigS]
  refine ⟨?_, ?_, ?_, ?_, ?_⟩
  · show (compactStore (logStoreInit (c8FilesWith bigS))).2 = true
    rw [c8_compact_state bigS]
  · rw [hst]; simp
  · rw [hst]; exact c8_active_full bigS strBytes_bigS
  · rw [hst]; simp [createNewSegment]
  · rw [hst]; simp [createNewSegment]

/-! ## SSTable index (`03_storage_engine/index.py`, class `SSTableIndex`)

The data file is the sorted record list `dataRecs` (record layout
`{ key_len:u32, value_len:u32, key, value }`, so 8 header bytes); the
sparse index holds `(key, offset)` pairs. -/

structure SSTable where
  sparseIndex : List (String × Nat)
  dataRecs : List (String × String)
  dataSize : Nat
deriving DecidableEq

def sstRecSize (k v : String) : Nat := 8 + strBytes k + strBytes v

/-- `SSTableIndex.build_from_records(records, sparse_interval=100)`:
write the records in sorted key order, adding a sparse entry every
`interval` records. -/
def buildSSTable (records : List (String × String)) (interval : Nat) :
    SSTable :=
  let sortedKeys := sortStrings (records.map Prod.fst)
  let fin := sortedKeys.foldl
    (fun (acc : List (String × Nat) × Nat × Nat) k =>
      let v := (dGet records k).getD ""
      let sparse :=
        if acc.2.2 % interval = 0 then acc.1 ++ [(k, acc.2.1)] else acc.1
      (sparse, acc.2.1 + sstRecSize k v, acc.2.2 + 1))
    ([], 0, 0)
  ⟨fin.1, sortedKeys.map (fun k => (k, (dGet records k).getD "")), fin.2.1⟩

/-- The forward scan of `SSTableIndex.get`: skip records before
`startOff` (the seek), then, while the file position is below `endOff`,
return the value on a key match, miss on a larger key, else skip. -/
def sstScan : List (String × String) → Nat → Nat → Nat → String →
    Option String
  | [], _, _, _, _ => none
  | (rk, rv) :: rest, cur, startOff, endOff, key =>
    if cur < startOff then sstScan rest (cur + sstRecSize rk rv) startOff endOff key
    else if !(cur < endOff) then none
    else if rk = key then some rv
    else if strLt key rk then none
    else sstScan rest (cur + sstRecSize rk rv) startOff endOff key

/-- `SSTableIndex.get(key)`: `bisect_right(sparse_index, (key,)) - 1`
computes (on the sorted sparse index) the index of the last entry whose
key is strictly below `key` — the count of such entries, minus one; then
the data file is scanned over the window the two neighbouring sparse
offsets delimit. -/
def ssGet (t : SSTable) (key : String) : Option String :=
  if t.sparseIndex.isEmpty then none
  else
    let cnt := t.sparseIndex.countP (fun e => strLt e.1 key)
    let startOff := if cnt = 0 then 0 else
      ((t.sparseIndex.getD (cnt - 1) ("", 0)).2)
    let endOff := if cnt < t.sparseIndex.length then
      (t.sparseIndex.getD cnt ("", 0)).2 else t.dataSize
    sstScan t.dataRecs 0 startOff endOff key

def c7Records : List (String × String) := [("a", "1"), ("b", "2")]

/-- C7 (code bug): build an SSTable from `{a: 1, b: 2}`. `get("b")`
succeeds, but `get("a")` — the first key of the table, present in the
records — returns `None`: `bisect_right(sparse, ("a",)) - 1 = -1`, so the
scan window is `[0, sparse[0].offset) = [0, 0)`, which is empty. -/
theorem sstable_get_misses_first_key :
    dGet c7Records "a" = some "1" ∧
    ssGet (buildSSTable c7Records 100) "a" = none ∧
    ssGet (buildSSTable c7Records 100) "b" = some "2" := by
  refine ⟨by decide, ?_, ?_⟩ <;> decide

/-! ## Persistent Raft log (`09_consensus_store/log.py`, `PersistentLog`)

Files are byte lists; `struct.pack('>Q Q I', ...)` is big-endian. -/

/-- Big-endian encoding of `n` into `w` bytes. -/
def beBytes : Nat → Nat → List Nat
  | 0, _ => []
  | w + 1, n => beBytes w (n / 256) ++ [n % 256]

/-- Big-endian value of a byte list (`struct.unpack` of a full-width
field). -/
def beVal (bs : List Nat) : Nat := bs.foldl (fun a b => a * 256 + b) 0

structure PersistentLogEntry where
  term : Nat
  index : Nat
  command : String
deriving DecidableEq

/-- `json.dumps` of a plain string command (no escapes needed for the
commands used here), as UTF-8 bytes: a quote, the bytes, a quote. -/
def jsonDumpBytes (s : String) : List Nat :=
  34 :: (s.data.map Char.toNat) ++ [34]

/-- `PersistentLog._append_to_file`: 20-byte header
`{term:u64, index:u64, cmd_len:u32}` then the command bytes. -/
def appendToFile (fileBytes : List Nat) (e : PersistentLogEntry) :
    List Nat :=
  let cmdBytes := jsonDumpBytes e.command
  fileBytes ++ beBytes 8 e.term ++ beBytes 8 e.index ++
    beBytes 4 cmdBytes.length ++ cmdBytes

structure PersistentLog where
  entries : List PersistentLogEntry
  fileBytes : List Nat
deriving DecidableEq

/-- `PersistentLog.append(term, command)`: index is `len(entries) + 1`. -/
def pLogAppend (lg : PersistentLog) (term : Nat) (command : String) :
    PersistentLog :=
  let entry : PersistentLogEntry := ⟨term, lg.entries.length + 1, command⟩
  ⟨lg.entries ++ [entry], appendToFile lg.fileBytes entry⟩

def pLogOfAppends (cmds : List (Nat × String)) : PersistentLog :=
  cmds.foldl (fun lg p => pLogAppend lg p.1 p.2) ⟨[], []⟩

/-- `struct.unpack('>Q Q', buf)` on a 16-byte buffer: a 2-tuple, embedded
as the list of its components. -/
def structUnpackQQ (bs : List Nat) : List Nat :=
  [beVal (bs.take 8), beVal ((bs.drop 8).take 8)]

/-- Python tuple unpacking `a, b, c = t`: succeeds only on a 3-tuple,
otherwise raises `ValueError`. -/
def unpack3 (vals : List Nat) : Except String (Nat × Nat × Nat) :=
  match vals with
  | [a, b, c] => Except.ok (a, b, c)
  | _ => Except.error "ValueError: not enough values to unpack"

/-- `PersistentLog._load`: read a 16-byte header (stop when fewer remain),
then execute `term, index, cmd_len = struct.unpack('>Q Q', header[:16])`.
That statement unpacks a 2-tuple into three targets, so it raises
`ValueError` before anything after it in the loop body can run; the `ok`
branch below is therefore unreachable (see `unpack3_structUnpackQQ`). -/
def pLogLoad (bytes : List Nat) : Except String (List PersistentLogEntry) :=
  if bytes.length < 16 then Except.ok []
  else
    match unpack3 (structUnpackQQ (bytes.take 16)) with
    | Except.error e => Except.error e
    | Except.ok _ => Except.ok []

lemma unpack3_structUnpackQQ (bs : List Nat) :
    unpack3 (structUnpackQQ bs) =
      Except.error "ValueError: not enough values to unpack" := rfl

/-- C6 (code bug): loading the file written by a single
`append(1, "set")` raises `ValueError` — the round-trip through
`_append_to_file` and `_load` fails on every non-empty log, because
`_load` unpacks the 16-byte prefix of the 20-byte record with a
two-field format into three names. -/
theorem persistent_log_load_valueerror :
    (pLogOfAppends [(1, "set")]).entries = [⟨1, 1, "set"⟩] ∧
    (pLogOfAppends [(1, "set")]).fileBytes.length = 25 ∧
    pLogLoad (pLogOfAppends [(1, "set")]).fileBytes =
      Except.error "ValueError: not enough values to unpack" := by
  refine ⟨by decide, by decide, ?_⟩
  rfl

/-! ## MVCC store (`07_transaction_system/store.py`, class `MVCCStore`)

`self.data` is a `defaultdict(MVCCRecord)`, embedded as a total function
with the empty record as default; `active_txns` and `committed_txns` are
partial maps. `time.time()` timestamps become explicit `Nat` arguments. -/

structure Version where
  value : Option String
  txnId : Nat
  timestamp : Nat
  deleted : Bool
deriving DecidableEq

structure MVCCRecord where
  versions : List Version
  lockHolder : Option Nat
  lockMode : Option String
deriving DecidableEq

def emptyMVCCRecord : MVCCRecord := ⟨[], none, none⟩

/-- A pending write (`write_set` entry): `{value, deleted}`. -/
structure Pending where
  value : Option String
  deleted : Bool
deriving DecidableEq

structure TxnInfo where
  startTs : Nat
  readSet : List String
  writeSet : List (String × Pending)
  status : String
deriving DecidableEq

structure MVCCStore where
  data : String → MVCCRecord
  nextTxnId : Nat
  activeTxns : Nat → Option TxnInfo
  committedTxns : Nat → Option Nat

/-- `MVCCStore.begin_transaction` at clock value `now`. -/
def mvccBegin (st : MVCCStore) (now : Nat) : MVCCStore × Nat :=
  ({ st with
      nextTxnId := st.nextTxnId + 1,
      activeTxns := fupd st.activeTxns st.nextTxnId
        (some ⟨now, [], [], "active"⟩) },
   st.nextTxnId)

/-- The version loop of `_get_visible_version`, over `reversed(versions)`:
a version of the reader itself returns immediately; a committed version
with `commit_ts <= snapshot_ts` returns; anything else is skipped. -/
def visLoop (cmap : Nat → Option Nat) (τ : Nat) (s : Nat) :
    List Version → Option String
  | [] => none
  | v :: rest =>
    if v.txnId = τ then (if v.deleted then none else v.value)
    else
      match cmap v.txnId with
      | some cts =>
          if cts ≤ s then (if v.deleted then none else v.value)
          else visLoop cmap τ s rest
      | none => visLoop cmap τ s rest

/-- `MVCCStore._get_visible_version(key, txn_id)`; `now` stands for the
`time.time()` fallback used when the transaction is not active. -/
def getVisibleVersion (st : MVCCStore) (k : String) (τ : Nat) (now : Nat) :
    Option String :=
  let record := st.data k
  if record.versions.isEmpty then none
  else
    let s := match st.activeTxns τ with
      | some info => info.startTs
      | none => now
    visLoop st.committedTxns τ s record.versions.reverse

/-- `MVCCStore.read(txn_id, key)`: own pending write first, else record
the read and resolve the visible version. Returns
`(state, value, error)`. -/
def mvccRead (st : MVCCStore) (τ : Nat) (k : String) (now : Nat) :
    MVCCStore × Option String × Option String :=
  match st.activeTxns τ with
  | none => (st, none, some "transaction not active")
  | some info =>
    match dGet info.writeSet k with
    | some pending =>
        (st, (if pending.deleted then none else pending.value), none)
    | none =>
        let info' := { info with
          readSet := if k ∈ info.readSet then info.readSet
                     else info.readSet ++ [k] }
        let st' := { st with activeTxns := fupd st.activeTxns τ (some info') }
        (st', getVisibleVersion st' k τ now, none)

/-- `MVCCStore.write(txn_id, key, value)`. -/
def mvccWrite (st : MVCCStore) (τ : Nat) (k : String) (v : String) :
    MVCCStore × Bool × Option String :=
  match st.activeTxns τ with
  | none => (st, false, some "transaction not active")
  | some info =>
    let record := st.data k
    if (match record.lockHolder with
        | some holder => holder != τ
        | none => false) then
      (st, false, some "write conflict")
    else
      ({ st with
          data := fupd st.data k
            { record with lockHolder := some τ, lockMode := some "write" },
          activeTxns := fupd st.activeTxns τ
            (some { info with
              writeSet := dUpsert info.writeSet k ⟨some v, false⟩ }) },
       true, none)

/-- `MVCCStore.delete(txn_id, key)`: like `write` with a deleted pending
version. -/
def mvccDelete (st : MVCCStore) (τ : Nat) (k : String) :
    MVCCStore × Bool × Option String :=
  match st.activeTxns τ with
  | none => (st, false, some "transaction not active")
  | some info =>
    let record := st.data k
    if (match record.lockHolder with
        | some holder => holder != τ
        | none => false) then
      (st, false, some "write conflict")
    else
      ({ st with
          data := fupd st.data k
            { record with lockHolder := some τ, lockMode := some "write" },
          activeTxns := fupd st.activeTxns τ
            (some { info with
              writeSet := dUpsert info.writeSet k ⟨none, true⟩ }) },
       true, none)

/-- `MVCCStore.commit(txn_id)` at commit timestamp `now`: append one
committed version per pending write, release the write locks, move the
transaction from active to committed. -/
def mvccCommit (st : MVCCStore) (τ : Nat) (now : Nat) :
    MVCCStore × Bool × Option String :=
  match st.activeTxns τ with
  | none => (st, false, some "transaction not active")
  | some info =>
    let data' := info.writeSet.foldl
      (fun d p =>
        let record := d p.1
        fupd d p.1
          ⟨record.versions ++ [⟨p.2.value, τ, now, p.2.deleted⟩],
           none, none⟩)
      st.data
    ({ st with
        data := data',
        committedTxns := fupd st.committedTxns τ (some now),
        activeTxns := fupd st.activeTxns τ none },
     true, none)

/-- `MVCCStore.abort(txn_id)`: release the locks this transaction holds
and drop it from the active table (pending writes disappear with it). -/
def mvccAbort (st : MVCCStore) (τ : Nat) :
    MVCCStore × Bool × Option String :=
  match st.activeTxns τ with
  | none => (st, false, some "transaction not active")
  | some info =>
    let data' := info.writeSet.foldl
      (fun d p =>
        let record := d p.1
        if record.lockHolder = some τ then
          fupd d p.1 { record with lockHolder := none, lockMode := none }
        else d)
      st.data
    ({ st with data := data', activeTxns := fupd st.activeTxns τ none },
     true, none)

/-- Commit timestamp the code reads off `committed_txns` for a version. -/
def commitTsOf (st : MVCCStore) (v : Version) : Nat :=
  (st.committedTxns v.txnId).getD 0

lemma visLoop_desc (cmap : Nat → Option Nat) (τ s : Nat)
    (m : List Version)
    (hcomm : ∀ v ∈ m, (cmap v.txnId).isSome)
    (hne : ∀ v ∈ m, v.txnId ≠ τ)
    (hdesc : m.Pairwise
      (fun a b => (cmap b.txnId).getD 0 < (cmap a.txnId).getD 0)) :
    (∃ v ∈ m, (cmap v.txnId).getD 0 ≤ s ∧
      (∀ w ∈ m, (cmap w.txnId).getD 0 ≤ s →
        (cmap w.txnId).getD 0 ≤ (cmap v.txnId).getD 0) ∧
      visLoop cmap τ s m = (if v.deleted then none else v.value)) ∨
    ((∀ v ∈ m, ¬ (cmap v.txnId).getD 0 ≤ s) ∧
      visLoop cmap τ s m = none) := by
  induction m with
  | nil => exact Or.inr ⟨by simp, rfl⟩
  | cons v rest ih =>
      have hvne : v.txnId ≠ τ := hne v (List.mem_cons_self _ _)
      obtain ⟨cts, hc⟩ :=
        Option.isSome_iff_exists.mp (hcomm v (List.mem_cons_self _ _))
      have hunfold : visLoop cmap τ s (v :: rest) =
          if cts ≤ s then (if v.deleted then none else v.value)
          else visLoop cmap τ s rest := by
        rw [visLoop]
        simp [hvne, hc]
      rcases List.pairwise_cons.mp hdesc with ⟨hhead, htail⟩
      by_cases hle : cts ≤ s
      · refine Or.inl ⟨v, List.mem_cons_self _ _, by simp [hc, hle], ?_, ?_⟩
        · intro w hw _
          rcases List.mem_cons.mp hw with rfl | hwrest
          · exact le_refl _
          · exact le_of_lt (by simpa [hc] using hhead w hwrest)
        · rw [hunfold, if_pos hle]
      · have ihres := ih (fun w hw => hcomm w (List.mem_cons_of_mem _ hw))
          (fun w hw => hne w (List.mem_cons_of_mem _ hw)) htail
        rcases ihres with ⟨w, hwmem, hwle, hwmax, hweq⟩ | ⟨hall, heq⟩
        · refine Or.inl ⟨w, List.mem_cons_of_mem _ hwmem, hwle, ?_, ?_⟩
          · intro u hu hule
            rcases List.mem_cons.mp hu with rfl | hurest
            · exact absurd (by simpa [hc] using hule) hle
            · exact hwmax u hurest hule
          · rw [hunfold, if_neg hle]; exact hweq
        · refine Or.inr ⟨?_, ?_⟩
          · intro u hu
            rcases List.mem_cons.mp hu with rfl | hurest
            · simpa [hc] using hle
            · exact hall u hurest
          · rw [hunfold, if_neg hle]; exact heq

/-- C4: for an active transaction `T` and key `k`, `read` returns `T`'s
own pending value when `k` is in its write set; otherwise it returns the
value of the committed version with the largest `commit_ts ≤ T.start_ts`
(`None` when that version is a deletion marker, or when no committed
version is that old). Well-formedness of the state — every stored version
committed, commit timestamps strictly increasing along each version list,
no stored version owned by the active reader — are the hypotheses. -/
theorem mvcc_read_snapshot (st : MVCCStore) (τ : Nat) (k : String)
    (now : Nat) (info : TxnInfo)
    (hactive : st.activeTxns τ = some info)
    (hcomm : ∀ v ∈ (st.data k).versions, (st.committedTxns v.txnId).isSome)
    (hnotown : ∀ v ∈ (st.data k).versions, v.txnId ≠ τ)
    (hsorted : (st.data k).versions.Pairwise
      (fun a b => commitTsOf st a < commitTsOf st b)) :
    (∀ p, dGet info.writeSet k = some p →
      (mvccRead st τ k now).2.1 = (if p.deleted then none else p.value)) ∧
    (dGet info.writeSet k = none →
      ((∃ v ∈ (st.data k).versions, commitTsOf st v ≤ info.startTs ∧
         (∀ w ∈ (st.data k).versions, commitTsOf st w ≤ info.startTs →
            commitTsOf st w ≤ commitTsOf st v) ∧
         (mvccRead st τ k now).2.1 = (if v.deleted then none else v.value))
       ∨ ((∀ v ∈ (st.data k).versions, ¬ commitTsOf st v ≤ info.startTs) ∧
          (mvccRead st τ k now).2.1 = none))) := by
  constructor
  · intro p hp
    simp [mvccRead, hactive, hp]
  · intro hnone
    have hval : (mvccRead st τ k now).2.1 =
        (if (st.data k).versions.isEmpty then none
         else visLoop st.committedTxns τ info.startTs
           (st.data k).versions.reverse) := by
      simp only [mvccRead, hactive, hnone]
      simp [getVisibleVersion, fupd]
    by_cases hemp : (st.data k).versions.isEmpty
    · refine Or.inr ⟨?_, by rw [hval, if_pos hemp]⟩
      intro v hv
      rw [List.isEmpty_iff] at hemp
      simp [hemp] at hv
    · have hdesc : (st.data k).versions.reverse.Pairwise
          (fun a b => (st.committedTxns b.txnId).getD 0 <
            (st.committedTxns a.txnId).getD 0) := by
        rw [List.pairwise_reverse]
        exact hsorted
      have hres := visLoop_desc st.committedTxns τ info.startTs
        (st.data k).versions.reverse
        (fun v hv => hcomm v (List.mem_reverse.mp hv))
        (fun v hv => hnotown v (List.mem_reverse.mp hv)) hdesc
      rw [hval, if_neg hemp]
      rcases hres with ⟨v, hvmem, hvle, hvmax, hveq⟩ | ⟨hall, heq⟩
      · exact Or.inl ⟨v, List.mem_reverse.mp hvmem, hvle,
          fun w hw hwle => hvmax w (List.mem_reverse.mpr hw) hwle, hveq⟩
      · exact Or.inr ⟨fun v hv => hall v (List.mem_reverse.mpr hv), heq⟩

/-- Concrete MVCC state for the C4 witness: two committed versions of
`"k"` (commit timestamps 5 and 10) and an active reader with
`start_ts = 7`. -/
def c4Store : MVCCStore :=
  { data := fupd (fun _ => emptyMVCCRecord) "k"
      ⟨[⟨some "v1", 1, 5, false⟩, ⟨some "v2", 2, 10, false⟩], none, none⟩,
    nextTxnId := 8,
    activeTxns := fupd (fun _ => none) 7 (some ⟨7, [], [], "active"⟩),
    committedTxns := fupd (fupd (fun _ => none) 1 (some 5)) 2 (some 10) }

/-- Witness for C4: at `c4Store` the snapshot read of transaction 7
returns `"v1"`, the version with the largest commit timestamp `≤ 7`. -/
theorem mvcc_read_snapshot_witness :
    c4Store.activeTxns 7 = some ⟨7, [], [], "active"⟩ ∧
    (mvccRead c4Store 7 "k" 0).2.1 = some "v1" ∧
    ((∀ p, dGet (⟨7, [], [], "active"⟩ : TxnInfo).writeSet "k" = some p →
      (mvccRead c4Store 7 "k" 0).2.1 = (if p.deleted then none else p.value)) ∧
    (dGet (⟨7, [], [], "active"⟩ : TxnInfo).writeSet "k" = none →
      ((∃ v ∈ (c4Store.data "k").versions,
          commitTsOf c4Store v ≤ 7 ∧
         (∀ w ∈ (c4Store.data "k").versions, commitTsOf c4Store w ≤ 7 →
            commitTsOf c4Store w ≤ commitTsOf c4Store v) ∧
         (mvccRead c4Store 7 "k" 0).2.1 = (if v.deleted then none else v.value))
       ∨ ((∀ v ∈ (c4Store.data "k").versions, ¬ commitTsOf c4Store v ≤ 7) ∧
          (mvccRead c4Store 7 "k" 0).2.1 = none)))) := by
  refine ⟨rfl, by decide, ?_⟩
  exact mvcc_read_snapshot c4Store 7 "k" 0 ⟨7, [], [], "active"⟩ rfl
    (by decide) (by decide) (by decide)

/-! ## Serializable Snapshot Isolation
(`07_transaction_system/serializable.py`, `SerializableSnapshotIsolation`)

Python `set` fields are embedded as duplicate-free lists with `sAdd`;
the `transactions` dict never drops entries, `committed_txns` aliases the
same (mutated) transaction objects, so both maps store the same values. -/

/-- Python `set.add` on a list-embedded set. -/
def sAdd {α : Type} [DecidableEq α] (l : List α) (x : α) : List α :=
  if x ∈ l then l else l ++ [x]

structure SSITxn where
  txnId : Nat
  startTs : Nat
  commitTs : Option Nat
  readSet : List String
  writeSet : List (String × String)
  inConflict : List Nat
  outConflict : List Nat
  committed : Bool
  aborted : Bool
deriving DecidableEq

structure SSIState where
  store : MVCCStore
  transactions : Nat → Option SSITxn
  committedTxns : Nat → Option SSITxn
  sireadLocks : String → List Nat
  writeLocks : String → Option Nat
  nextTxnId : Nat

/-- `self.transactions.get(id) or self.committed_txns.get(id)`. -/
def ssiLookupTxn (st : SSIState) (i : Nat) : Option SSITxn :=
  match st.transactions i with
  | some t => some t
  | none => st.committedTxns i

/-- `SerializableSnapshotIsolation.begin` at clock value `now`. -/
def ssiBegin (st : SSIState) (now : Nat) : SSIState × Nat :=
  let τ := st.nextTxnId
  ({ st with
      nextTxnId := τ + 1,
      transactions := fupd st.transactions τ
        (some ⟨τ, now, none, [], [], [], [], false, false⟩),
      store := { st.store with
        activeTxns := fupd st.store.activeTxns τ
          (some ⟨now, [], [], "active"⟩) } },
   τ)

/-- `SerializableSnapshotIsolation.read`: own write wins; otherwise take a
SIREAD lock and, if a different live writer holds the write lock on `k`,
record the rw-antidependency `writer → this`; then read the MVCC store. -/
def ssiRead (st : SSIState) (τ : Nat) (k : String) (now : Nat) :
    SSIState × Option String × Option String :=
  match st.transactions τ with
  | none => (st, none, some "invalid transaction")
  | some txn =>
    if txn.aborted || txn.committed then (st, none, some "invalid transaction")
    else
      match dGet txn.writeSet k with
      | some v => (st, some v, none)
      | none =>
        let txn1 := { txn with readSet := sAdd txn.readSet k }
        let st1 := { st with
          transactions := fupd st.transactions τ (some txn1),
          sireadLocks := fupd st.sireadLocks k (sAdd (st.sireadLocks k) τ) }
        let st2 :=
          match st1.writeLocks k with
          | some writerId =>
            if writerId ≠ τ then
              match st1.transactions writerId with
              | some writerTxn =>
                if !writerTxn.committed then
                  let txn2 := { txn1 with
                    inConflict := sAdd txn1.inConflict writerId }
                  let writer2 := { writerTxn with
                    outConflict := sAdd writerTxn.outConflict τ }
                  let tmap := fupd (fupd st1.transactions τ (some txn2))
                    writerId (some writer2)
                  { st1 with transactions := tmap }
                else st1
              | none => st1
            else st1
          | none => st1
        let r := mvccRead st2.store τ k now
        ({ st2 with store := r.1 }, r.2.1, r.2.2)

/-- `SerializableSnapshotIsolation.write`: reject on a foreign write lock;
record the rw-antidependency `reader → this` for every other live SIREAD
holder of `k`; take the write lock and the pending write; then write the
MVCC store. -/
def ssiWrite (st : SSIState) (τ : Nat) (k : String) (v : String) :
    SSIState × Bool × Option String :=
  match st.transactions τ with
  | none => (st, false, some "invalid transaction")
  | some txn =>
    if txn.aborted || txn.committed then (st, false, some "invalid transaction")
    else if (match st.writeLocks k with
             | some holder => holder != τ
             | none => false) then
      (st, false, some "write conflict")
    else
      let st1 := (st.sireadLocks k).foldl
        (fun s readerId =>
          if readerId ≠ τ then
            match s.transactions readerId with
            | some readerTxn =>
              if !readerTxn.aborted then
                let txnCur := (s.transactions τ).getD txn
                let reader2 := { readerTxn with
                  outConflict := sAdd readerTxn.outConflict τ }
                let txn2 := { txnCur with
                  inConflict := sAdd txnCur.inConflict readerId }
                let tmap := fupd (fupd s.transactions readerId (some reader2))
                  τ (some txn2)
                { s with transactions := tmap }
              else s
            | none => s
          else s)
        st
      let txnCur := (st1.transactions τ).getD txn
      let st2 := { st1 with
        writeLocks := fupd st1.writeLocks k (some τ),
        transactions := fupd st1.transactions τ
          (some { txnCur with writeSet := dUpsert txnCur.writeSet k v }) }
      let r := mvccWrite st2.store τ k v
      ({ st2 with store := r.1 }, r.2.1, r.2.2)

/-- `SerializableSnapshotIsolation._cleanup_locks`: drop this
transaction's SIREAD locks on its read set and its write locks. -/
def cleanupLocks (st : SSIState) (txn : SSITxn) : SSIState :=
  { st with
    sireadLocks := fun k =>
      if k ∈ txn.readSet then
        (st.sireadLocks k).filter (fun i => i != txn.txnId)
      else st.sireadLocks k,
    writeLocks := fun k =>
      if (txn.writeSet.map Prod.fst).contains k
          && (st.writeLocks k == some txn.txnId) then none
      else st.writeLocks k }

/-- `SerializableSnapshotIsolation._abort_internal`. -/
def abortInternal (st : SSIState) (txn : SSITxn) : SSIState :=
  let txn' := { txn with aborted := true }
  let st1 := { st with
    transactions := fupd st.transactions txn.txnId (some txn') }
  let st2 := { st1 with store := (mvccAbort st1.store txn.txnId).1 }
  cleanupLocks st2 txn'

/-- The per-endpoint skip test of `_has_dangerous_structure`:
`endpoint.committed and endpoint.commit_ts < txn.start_ts` (a committed
transaction always carries a commit timestamp; the `none` arm is dead
under that invariant). -/
def skipEndpoint (t : SSITxn) (s : Nat) : Bool :=
  t.committed && (match t.commitTs with
                  | some c => decide (c < s)
                  | none => false)

/-- `SerializableSnapshotIsolation._has_dangerous_structure`. -/
def hasDangerousStructure (st : SSIState) (txn : SSITxn) : Bool :=
  txn.inConflict.any fun iId =>
    match ssiLookupTxn st iId with
    | none => false
    | some tIn =>
      if skipEndpoint tIn txn.startTs then false
      else
        txn.outConflict.any fun oId =>
          match ssiLookupTxn st oId with
          | none => false
          | some tOut =>
            if skipEndpoint tOut txn.startTs then false
            else !tIn.aborted && !tOut.aborted

/-- `SerializableSnapshotIsolation.commit` at commit timestamp `now`. -/
def ssiCommit (st : SSIState) (τ : Nat) (now : Nat) :
    SSIState × Bool × Option String :=
  match st.transactions τ with
  | none => (st, false, some "invalid transaction")
  | some txn =>
    if txn.aborted || txn.committed then (st, false, some "invalid transaction")
    else if hasDangerousStructure st txn then
      (abortInternal st txn, false, some "serialization failure")
    else
      let txn1 := { txn with commitTs := some now }
      let st1 := { st with transactions := fupd st.transactions τ (some txn1) }
      let r := mvccCommit st1.store τ now
      let st2 := { st1 with store := r.1 }
      if r.2.1 then
        let txn2 := { txn1 with committed := true }
        let st3 := { st2 with
          transactions := fupd st2.transactions τ (some txn2),
          committedTxns := fupd st2.committedTxns τ (some txn2) }
        (cleanupLocks st3 txn2, true, none)
      else (st2, r.2.1, r.2.2)

/-- `SerializableSnapshotIsolation.abort`. -/
def ssiAbort (st : SSIState) (τ : Nat) : SSIState × Bool × Option String :=
  match st.transactions τ with
  | none => (st, false, some "invalid transaction")
  | some txn => (abortInternal st txn, true, none)

/-- The claim's endpoint condition: the endpoint is still live, or it
committed at or after the pivot's snapshot. -/
def liveOrCommittedAfter (t : SSITxn) (s : Nat) : Prop :=
  (t.committed = false ∧ t.aborted = false) ∨
  (t.committed = true ∧ ∃ c, t.commitTs = some c ∧ s ≤ c)

lemma endpoint_cond (t : SSITxn) (s : Nat)
    (hwf1 : t.committed = true → t.commitTs.isSome)
    (hwf2 : ¬(t.committed = true ∧ t.aborted = true)) :
    (skipEndpoint t s = false ∧ t.aborted = false) ↔
      liveOrCommittedAfter t s := by
  constructor
  · rintro ⟨hskip, hab⟩
    by_cases hcom : t.committed = true
    · obtain ⟨c, hc⟩ := Option.isSome_iff_exists.mp (hwf1 hcom)
      refine Or.inr ⟨hcom, c, hc, ?_⟩
      simp [skipEndpoint, hcom, hc] at hskip
      omega
    · exact Or.inl ⟨by simpa using hcom, hab⟩
  · rintro (⟨hcom, hab⟩ | ⟨hcom, c, hc, hle⟩)
    · exact ⟨by simp [skipEndpoint, hcom], hab⟩
    · refine ⟨by simp [skipEndpoint, hcom, hc]; omega, ?_⟩
      by_contra hab
      exact hwf2 ⟨hcom, by simpa using hab⟩

lemma dangerous_iff (st : SSIState) (txn : SSITxn)
    (hres : ∀ i ∈ txn.inConflict ++ txn.outConflict,
      ∃ t, ssiLookupTxn st i = some t ∧
        (t.committed = true → t.commitTs.isSome) ∧
        ¬(t.committed = true ∧ t.aborted = true)) :
    hasDangerousStructure st txn = true ↔
      ∃ tIn tOut,
        (∃ i ∈ txn.inConflict, ssiLookupTxn st i = some tIn) ∧
        (∃ o ∈ txn.outConflict, ssiLookupTxn st o = some tOut) ∧
        liveOrCommittedAfter tIn txn.startTs ∧
        liveOrCommittedAfter tOut txn.startTs := by
  rw [hasDangerousStructure, List.any_eq_true]
  constructor
  · rintro ⟨i, hi, hfi⟩
    obtain ⟨tIn, hlin, hwf1i, hwf2i⟩ :=
      hres i (List.mem_append_left _ hi)
    rw [hlin] at hfi
    dsimp only at hfi
    by_cases hskipIn : skipEndpoint tIn txn.startTs
    · simp [hskipIn] at hfi
    · rw [if_neg hskipIn, List.any_eq_true] at hfi
      obtain ⟨o, ho, hfo⟩ := hfi
      obtain ⟨tOut, hlout, hwf1o, hwf2o⟩ :=
        hres o (List.mem_append_right _ ho)
      rw [hlout] at hfo
      dsimp only at hfo
      by_cases hskipOut : skipEndpoint tOut txn.startTs
      · simp [hskipOut] at hfo
      · rw [if_neg hskipOut] at hfo
        simp only [Bool.and_eq_true, Bool.not_eq_true'] at hfo
        exact ⟨tIn, tOut, ⟨i, hi, hlin⟩, ⟨o, ho, hlout⟩,
          (endpoint_cond tIn txn.startTs hwf1i hwf2i).mp
            ⟨by simpa using hskipIn, hfo.1⟩,
          (endpoint_cond tOut txn.startTs hwf1o hwf2o).mp
            ⟨by simpa using hskipOut, hfo.2⟩⟩
  · rintro ⟨tIn, tOut, ⟨i, hi, hlin⟩, ⟨o, ho, hlout⟩, hcin, hcout⟩
    obtain ⟨tIn', hlin', hwf1i, hwf2i⟩ :=
      hres i (List.mem_append_left _ hi)
    have heqIn : tIn = tIn' := Option.some_inj.mp (hlin.symm.trans hlin')
    subst heqIn
    obtain ⟨tOut', hlout', hwf1o, hwf2o⟩ :=
      hres o (List.mem_append_right _ ho)
    have heqOut : tOut = tOut' := Option.some_inj.mp (hlout.symm.trans hlout')
    subst heqOut
    obtain ⟨hskipIn, habIn⟩ :=
      (endpoint_cond tIn txn.startTs hwf1i hwf2i).mpr hcin
    obtain ⟨hskipOut, habOut⟩ :=
      (endpoint_cond tOut txn.startTs hwf1o hwf2o).mpr hcout
    refine ⟨i, hi, ?_⟩
    rw [hlin]
    dsimp only
    rw [if_neg (by simp [hskipIn]), List.any_eq_true]
    refine ⟨o, ho, ?_⟩
    rw [hlout]
    dsimp only
    rw [if_neg (by simp [hskipOut])]
    simp [habIn, habOut]

lemma cleanupLocks_siread (st : SSIState) (txn : SSITxn) (τ : Nat)
    (hid : txn.txnId = τ)
    (hsir : ∀ k, τ ∈ st.sireadLocks k → k ∈ txn.readSet) :
    ∀ k, τ ∉ (cleanupLocks st txn).sireadLocks k := by
  intro k hk
  simp only [cleanupLocks] at hk
  by_cases hmem : k ∈ txn.readSet
  · rw [if_pos hmem] at hk
    rcases List.mem_filter.mp hk with ⟨_, hne⟩
    simp [hid] at hne
  · rw [if_neg hmem] at hk
    exact hmem (hsir k hk)

lemma cleanupLocks_write (st : SSIState) (txn : SSITxn) (τ : Nat)
    (hid : txn.txnId = τ)
    (hwl : ∀ k, st.writeLocks k = some τ →
      (txn.writeSet.map Prod.fst).contains k = true) :
    ∀ k, (cleanupLocks st txn).writeLocks k ≠ some τ := by
  intro k hk
  simp only [cleanupLocks] at hk
  by_cases hcond : ((txn.writeSet.map Prod.fst).contains k
      && (st.writeLocks k == some txn.txnId)) = true
  · rw [if_pos hcond] at hk
    cases hk
  · rw [if_neg hcond] at hk
    apply hcond
    simp only [Bool.and_eq_true, beq_iff_eq]
    exact ⟨hwl k hk, by rw [hk, hid]⟩

lemma mvccAbort_active (s : MVCCStore) (τ : Nat)
    (h : (s.activeTxns τ).isSome) : (mvccAbort s τ).1.activeTxns τ = none := by
  obtain ⟨info, hinfo⟩ := Option.isSome_iff_exists.mp h
  simp [mvccAbort, hinfo, fupd]

lemma mvccCommit_facts (s : MVCCStore) (τ now : Nat)
    (h : (s.activeTxns τ).isSome) :
    (mvccCommit s τ now).2.1 = true ∧
    (mvccCommit s τ now).1.activeTxns τ = none ∧
    (mvccCommit s τ now).1.committedTxns τ = some now := by
  obtain ⟨info, hinfo⟩ := Option.isSome_iff_exists.mp h
  refine ⟨?_, ?_, ?_⟩ <;> simp [mvccCommit, hinfo, fupd]

/-- C5: for a still-active transaction, `commit` returns the
serialization-failure error exactly when the transaction has an incoming
and an outgoing rw-conflict edge whose endpoints are each still live or
committed at or after its snapshot; on that error the transaction is
aborted (pending store writes dropped, SIREAD and write locks released);
otherwise it commits through the MVCC store and its locks are released. -/
theorem ssi_commit_serialization (st : SSIState) (τ now : Nat)
    (txn : SSITxn)
    (htxn : st.transactions τ = some txn)
    (htxnid : txn.txnId = τ)
    (hab : txn.aborted = false) (hco : txn.committed = false)
    (hres : ∀ i ∈ txn.inConflict ++ txn.outConflict,
      ∃ t, ssiLookupTxn st i = some t ∧
        (t.committed = true → t.commitTs.isSome) ∧
        ¬(t.committed = true ∧ t.aborted = true))
    (hsir : ∀ k, τ ∈ st.sireadLocks k → k ∈ txn.readSet)
    (hwl : ∀ k, st.writeLocks k = some τ →
      (txn.writeSet.map Prod.fst).contains k = true)
    (hstore : (st.store.activeTxns τ).isSome) :
    ((ssiCommit st τ now).2.2 = some "serialization failure" ↔
      ∃ tIn tOut,
        (∃ i ∈ txn.inConflict, ssiLookupTxn st i = some tIn) ∧
        (∃ o ∈ txn.outConflict, ssiLookupTxn st o = some tOut) ∧
        liveOrCommittedAfter tIn txn.startTs ∧
        liveOrCommittedAfter tOut txn.startTs) ∧
    ((ssiCommit st τ now).2.2 = some "serialization failure" →
      (ssiCommit st τ now).2.1 = false ∧
      (∃ t, (ssiCommit st τ now).1.transactions τ = some t ∧
        t.aborted = true) ∧
      (ssiCommit st τ now).1.store.activeTxns τ = none ∧
      (∀ k, τ ∉ (ssiCommit st τ now).1.sireadLocks k) ∧
      (∀ k, (ssiCommit st τ now).1.writeLocks k ≠ some τ)) ∧
    ((ssiCommit st τ now).2.2 ≠ some "serialization failure" →
      (ssiCommit st τ now).2.1 = true ∧
      (ssiCommit st τ now).2.2 = none ∧
      (∃ t, (ssiCommit st τ now).1.transactions τ = some t ∧
        t.committed = true) ∧
      (ssiCommit st τ now).1.store.committedTxns τ = some now ∧
      (ssiCommit st τ now).1.store.activeTxns τ = none ∧
      (∀ k, τ ∉ (ssiCommit st τ now).1.sireadLocks k) ∧
      (∀ k, (ssiCommit st τ now).1.writeLocks k ≠ some τ)) := by
  by_cases hd : hasDangerousStructure st txn = true
  · have heq : ssiCommit st τ now =
        (abortInternal st txn, false, some "serialization failure") := by
      simp [ssiCommit, htxn, hab, hco, hd]
    rw [heq]
    refine ⟨?_, ?_, ?_⟩
    · simpa using (dangerous_iff st txn hres).mp hd
    · intro _
      refine ⟨rfl, ⟨{ txn with aborted := true }, ?_, rfl⟩, ?_, ?_, ?_⟩
      · simp [abortInternal, cleanupLocks, htxnid, fupd]
      · simpa [abortInternal, cleanupLocks, htxnid] using
          mvccAbort_active st.store τ hstore
      · intro k
        exact cleanupLocks_siread _ { txn with aborted := true } τ htxnid
          (by simpa [abortInternal] using hsir) k
      · intro k
        exact cleanupLocks_write _ { txn with aborted := true } τ htxnid
          (by simpa [abortInternal] using hwl) k
    · intro hne
      exact absurd rfl hne
  · obtain ⟨hc1, hc2, hc3⟩ := mvccCommit_facts st.store τ now hstore
    have heq : ssiCommit st τ now =
        (cleanupLocks
          { st with
            transactions := fupd
              (fupd st.transactions τ (some { txn with commitTs := some now }))
              τ (some { txn with commitTs := some now, committed := true }),
            committedTxns := fupd st.committedTxns τ
              (some { txn with commitTs := some now, committed := true }),
            store := (mvccCommit st.store τ now).1 }
          { txn with commitTs := some now, committed := true },
         true, none) := by
      simp [ssiCommit, htxn, hab, hco, hd, hc1]
    rw [heq]
    refine ⟨?_, ?_, ?_⟩
    · constructor
      · intro h; cases h
      · intro hrhs
        exact absurd ((dangerous_iff st txn hres).mpr
          (by simpa using hrhs)) hd
    · intro h; cases h
    · intro _
      refine ⟨rfl, rfl,
        ⟨{ txn with commitTs := some now, committed := true }, ?_, rfl⟩,
        ?_, ?_, ?_, ?_⟩
      · simp [cleanupLocks, fupd]
      · simpa [cleanupLocks] using hc3
      · simpa [cleanupLocks] using hc2
      · intro k
        exact cleanupLocks_siread _
          { txn with commitTs := some now, committed := true } τ htxnid
          (by simpa using hsir) k
      · intro k
        exact cleanupLocks_write _
          { txn with commitTs := some now, committed := true } τ htxnid
          (by simpa using hwl) k

def c5EmptyStore : MVCCStore :=
  ⟨fun _ => emptyMVCCRecord, 1, fun _ => none, fun _ => none⟩

def c5Start : SSIState :=
  ⟨c5EmptyStore, fun _ => none, fun _ => none, fun _ => [], fun _ => none, 1⟩

/-- C5 witness state: transactions 1, 2, 3 begin; 1 writes `x`; 2 reads
`x` (incoming edge 1 → 2) and reads `y`; 3 writes `y` (outgoing edge
2 → 3). Transaction 2 is now a pivot with live endpoints. -/
def c5State : SSIState :=
  (ssiWrite
    ((ssiRead
      ((ssiRead
        ((ssiWrite
          ((ssiBegin ((ssiBegin ((ssiBegin c5Start 10).1) 11).1) 12).1
          ) 1 "x" "vx").1
        ) 2 "x" 13).1
      ) 2 "y" 14).1
    ) 3 "y" "vy").1

def c5Txn : SSITxn := ⟨2, 11, none, ["x", "y"], [], [1], [3], false, false⟩

/-- Witness for C5: committing the pivot transaction 2 in `c5State` fails
with the serialization-failure error and aborts it. -/
theorem ssi_commit_serialization_witness :
    c5State.transactions 2 = some c5Txn ∧
    (c5State.store.activeTxns 2).isSome ∧
    (ssiCommit c5State 2 20).2.2 = some "serialization failure" ∧
    (∃ t, (ssiCommit c5State 2 20).1.transactions 2 = some t ∧
      t.aborted = true) ∧
    (∀ k, 2 ∉ (ssiCommit c5State 2 20).1.sireadLocks k) := by
  have hfun : ∀ k, c5State.sireadLocks k =
      fupd (fupd (fun _ => ([] : List Nat)) "x" [2]) "y" [2] k :=
    fun _ => rfl
  have hwfun : ∀ k, c5State.writeLocks k =
      fupd (fupd (fun _ => (none : Option Nat)) "x" (some 1)) "y" (some 3) k :=
    fun _ => rfl
  have hsir : ∀ k, 2 ∈ c5State.sireadLocks k → k ∈ c5Txn.readSet := by
    intro k hk
    rw [hfun k] at hk
    by_cases h1 : k = "y"
    · subst h1; decide
    · by_cases h2 : k = "x"
      · subst h2; decide
      · simp [fupd, h1, h2] at hk
  have hwl : ∀ k, c5State.writeLocks k = some 2 →
      (c5Txn.writeSet.map Prod.fst).contains k = true := by
    intro k hk
    rw [hwfun k] at hk
    by_cases h1 : k = "y"
    · subst h1; simp [fupd] at hk
    · by_cases h2 : k = "x"
      · subst h2; simp [fupd, h1] at hk
      · simp [fupd, h1, h2] at hk
  have hres : ∀ i ∈ c5Txn.inConflict ++ c5Txn.outConflict,
      ∃ t, ssiLookupTxn c5State i = some t ∧
        (t.committed = true → t.commitTs.isSome) ∧
        ¬(t.committed = true ∧ t.aborted = true) := by
    intro i hi
    have : i = 1 ∨ i = 3 := by
      simpa [c5Txn, List.mem_cons] using hi
    rcases this with rfl | rfl
    · exact ⟨_, rfl, by decide, by decide⟩
    · exact ⟨_, rfl, by decide, by decide⟩
  have main := ssi_commit_serialization c5State 2 20 c5Txn rfl rfl rfl rfl
    hres hsir hwl (by decide)
  have herr : (ssiCommit c5State 2 20).2.2 = some "serialization failure" := by
    decide
  have hpost := main.2.1 herr
  exact ⟨rfl, by decide, herr, hpost.2.1, hpost.2.2.2.1⟩

/-! ## Raft node (`09_consensus_store/raft_node.py`, class `RaftNode`)

`_handle_append_entries` and `_start_election` are embedded as pure
functions; the election takes the peers' RPC responses as a list
(`none` for a dropped RPC). Election-timer bookkeeping and the
`next_index`/`match_index` initialization of `_become_leader` carry no
information for the properties below and are not modelled. -/

inductive NodeRole where
  | follower
  | candidate
  | leader
deriving DecidableEq

structure RaftLogEntry where
  term : Nat
  index : Nat
  command : String
deriving DecidableEq

structure RaftState where
  currentTerm : Nat
  votedFor : Option Nat
  log : List RaftLogEntry
  commitIndex : Nat
  lastApplied : Nat
deriving DecidableEq

structure RaftNodeState where
  raft : RaftState
  role : NodeRole
  leaderId : Option Nat
deriving DecidableEq

structure AppendEntriesReq where
  term : Nat
  leaderId : Nat
  prevLogIndex : Nat
  prevLogTerm : Nat
  entries : List RaftLogEntry
  leaderCommit : Nat
deriving DecidableEq

def defaultEntry : RaftLogEntry := ⟨0, 0, ""⟩

/-- The entry loop of `_handle_append_entries`: an entry whose index is
within the log overwrites in place, otherwise it is appended. -/
def storeEntry (lg : List RaftLogEntry) (e : RaftLogEntry) :
    List RaftLogEntry :=
  if e.index ≤ lg.length then lg.set (e.index - 1) e else lg ++ [e]

/-- The accept path of `_handle_append_entries`: store the entries, then
`if leader_commit > commit_index: commit_index = min(leader_commit,
len(log)); _apply_committed()` (the apply loop raises `last_applied` to
the new `commit_index`; the callback's effect is external). -/
def appendPhase (nd : RaftNodeState) (req : AppendEntriesReq) :
    RaftNodeState × Nat × Bool :=
  let log' := req.entries.foldl storeEntry nd.raft.log
  let ci := if nd.raft.commitIndex < req.leaderCommit
    then min req.leaderCommit log'.length else nd.raft.commitIndex
  let la := if nd.raft.commitIndex < req.leaderCommit
    then max nd.raft.lastApplied ci else nd.raft.lastApplied
  ({ nd with raft := { nd.raft with
      log := log', commitIndex := ci, lastApplied := la } },
   nd.raft.currentTerm, true)

/-- `RaftNode._handle_append_entries`, returning the new node state and
the `(term, success)` reply. -/
def handleAppendEntries (nd : RaftNodeState) (req : AppendEntriesReq) :
    RaftNodeState × Nat × Bool :=
  let nd1 := if nd.raft.currentTerm < req.term then
      { nd with
        raft := { nd.raft with currentTerm := req.term, votedFor := none },
        role := .follower }
    else nd
  if req.term < nd1.raft.currentTerm then
    (nd1, nd1.raft.currentTerm, false)
  else
    let nd2 := { nd1 with leaderId := some req.leaderId, role := .follower }
    if 0 < req.prevLogIndex then
      if nd2.raft.log.length < req.prevLogIndex then
        (nd2, nd2.raft.currentTerm, false)
      else if (nd2.raft.log.getD (req.prevLogIndex - 1) defaultEntry).term
          ≠ req.prevLogTerm then
        ({ nd2 with raft := { nd2.raft with
            log := nd2.raft.log.take (req.prevLogIndex - 1) } },
         nd2.raft.currentTerm, false)
      else appendPhase nd2 req
    else appendPhase nd2 req

structure VoteResponse where
  term : Nat
  voteGranted : Bool
deriving DecidableEq

/-- The RPC loop of `_start_election`: count a granted vote, and on a
response with a higher term abandon the election (returning the higher
term); `none` responses are dropped RPCs. -/
def voteLoop (term : Nat) : List (Option VoteResponse) → Nat →
    Nat × Option Nat
  | [], votes => (votes, none)
  | none :: rest, votes => voteLoop term rest votes
  | some r :: rest, votes =>
    let votes' := if r.voteGranted then votes + 1 else votes
    if term < r.term then (votes', some r.term)
    else voteLoop term rest votes'

/-- `RaftNode._start_election` (with `_become_leader`): become candidate,
bump the term, vote for self, poll the `numPeers` peers, and become
leader iff no higher term was seen and `votes > len(peers) // 2`
(the state is still `CANDIDATE` in that case). Returns the new state and
whether the node became leader. -/
def startElection (nd : RaftNodeState) (nodeId numPeers : Nat)
    (responses : List (Option VoteResponse)) : RaftNodeState × Bool :=
  let st0 := { nd with
    role := .candidate,
    raft := { nd.raft with
      currentTerm := nd.raft.currentTerm + 1, votedFor := some nodeId } }
  let r := voteLoop st0.raft.currentTerm responses 1
  match r.2 with
  | some higher =>
      ({ st0 with
          role := .follower,
          raft := { st0.raft with currentTerm := higher, votedFor := none } },
       false)
  | none =>
      if numPeers / 2 < r.1 then
        ({ st0 with role := .leader, leaderId := some nodeId }, true)
      else (st0, false)

/-- Granted votes among the responses (all of one poll). -/
def grantedCount (responses : List (Option VoteResponse)) : Nat :=
  (responses.filterMap id).countP (·.voteGranted)

lemma storeEntry_step (lg : List RaftLogEntry) (e : RaftLogEntry) (p : Nat)
    (hp : p ≤ lg.length) (he : e.index = p + 1) :
    (storeEntry lg e).length = max lg.length (p + 1) ∧
    ∀ j, (storeEntry lg e)[j]? = if j = p then some e else lg[j]? := by
  rw [storeEntry, he]
  by_cases hle : p + 1 ≤ lg.length
  · rw [if_pos hle]
    refine ⟨by simp [List.length_set]; omega, ?_⟩
    intro j
    simp only [Nat.add_sub_cancel, List.getElem?_set]
    by_cases hj : p = j
    · subst hj
      rw [if_pos rfl, if_pos (by omega), if_pos rfl]
    · rw [if_neg hj, if_neg (fun h => hj h.symm)]
  · rw [if_neg hle]
    have hlen : lg.length = p := by omega
    refine ⟨by simp; omega, ?_⟩
    intro j
    by_cases hj : j = p
    · subst hj
      rw [if_pos rfl, ← hlen, List.getElem?_concat_length]
    · rw [if_neg hj, List.getElem?_append]
      by_cases hlt : j < lg.length
      · rw [if_pos hlt]
      · rw [if_neg hlt]
        have h1 : ([e] : List RaftLogEntry)[j - lg.length]? = none :=
          List.getElem?_len_le (by simp; omega)
        have h2 : lg[j]? = none := List.getElem?_len_le (by omega)
        rw [h1, h2]

lemma storeEntry_fold (entries : List RaftLogEntry) :
    ∀ (lg : List RaftLogEntry) (p : Nat), p ≤ lg.length →
      (∀ j, j < entries.length →
        (entries.getD j defaultEntry).index = p + j + 1) →
      ((entries.foldl storeEntry lg).length
          = max lg.length (p + entries.length) ∧
       ∀ j, (entries.foldl storeEntry lg)[j]? =
         if p ≤ j ∧ j < p + entries.length
         then entries[j - p]? else lg[j]?) := by
  induction entries with
  | nil =>
      intro lg p hp _
      refine ⟨by simp only [List.foldl_nil, List.length_nil]; omega, ?_⟩
      intro j
      rw [List.foldl_nil, if_neg (by simp only [List.length_nil]; omega)]
  | cons e rest ih =>
      intro lg p hp hidx
      have he : e.index = p + 1 := by simpa using hidx 0 (by simp)
      obtain ⟨hlen1, hget1⟩ := storeEntry_step lg e p hp he
      have hp1 : p + 1 ≤ (storeEntry lg e).length := by omega
      have hidx1 : ∀ j, j < rest.length →
          (rest.getD j defaultEntry).index = (p + 1) + j + 1 := by
        intro j hj
        have := hidx (j + 1) (by simpa using Nat.succ_lt_succ hj)
        rw [List.getD_cons_succ] at this
        omega
      obtain ⟨hlen2, hget2⟩ := ih (storeEntry lg e) (p + 1) hp1 hidx1
      rw [List.foldl_cons]
      constructor
      · rw [hlen2, hlen1]
        simp [List.length_cons]
        omega
      · intro j
        rw [hget2 j]
        by_cases hj1 : p + 1 ≤ j ∧ j < p + 1 + rest.length
        · rw [if_pos hj1, if_pos (by simp only [List.length_cons]; omega)]
          have hsub : j - p = (j - (p + 1)) + 1 := by omega
          rw [hsub, List.getElem?_cons_succ]
        · rw [if_neg hj1, hget1 j]
          by_cases hj2 : j = p
          · subst hj2
            rw [if_pos rfl,
              if_pos (by simp only [List.length_cons]; omega)]
            simp
          · rw [if_neg hj2, if_neg (by simp only [List.length_cons]; omega)]

lemma appendPhase_spec (nd : RaftNodeState) (req : AppendEntriesReq)
    (hplen : req.prevLogIndex ≤ nd.raft.log.length)
    (hidx : ∀ j, j < req.entries.length →
      (req.entries.getD j defaultEntry).index = req.prevLogIndex + j + 1) :
    (appendPhase nd req).2.2 = true ∧
    (appendPhase nd req).1.raft.log.length
      = max nd.raft.log.length (req.prevLogIndex + req.entries.length) ∧
    (∀ j, (appendPhase nd req).1.raft.log[j]? =
      if req.prevLogIndex ≤ j ∧ j < req.prevLogIndex + req.entries.length
      then req.entries[j - req.prevLogIndex]? else nd.raft.log[j]?) ∧
    (nd.raft.commitIndex < req.leaderCommit →
      (appendPhase nd req).1.raft.commitIndex =
        min req.leaderCommit (appendPhase nd req).1.raft.log.length) ∧
    (¬ nd.raft.commitIndex < req.leaderCommit →
      (appendPhase nd req).1.raft.commitIndex = nd.raft.commitIndex) := by
  obtain ⟨hlen, hget⟩ :=
    storeEntry_fold req.entries nd.raft.log req.prevLogIndex hplen hidx
  refine ⟨rfl, ?_, ?_, ?_, ?_⟩
  · simpa [appendPhase] using hlen
  · intro j
    simpa [appendPhase] using hget j
  · intro h
    simp [appendPhase, if_pos h]
  · intro h
    simp [appendPhase, if_neg h]

/-- C2 (amended): on an accepted AppendEntries request (term not below the
receiver's, previous-entry check passing, entry indices consecutive after
`prev_log_index`) the receiver replies success, stores each sent entry at
its index — overwriting what was there and appending past the end, while
entries beyond the sent range survive — and, whenever `leader_commit`
exceeds its `commit_index`, sets
`commit_index = min(leader_commit, len(log))` for the log length *after*
the entries were stored (the code uses `len(self.raft_state.log)`, not
the index of the last new entry). -/
theorem raft_append_entries_accept (nd : RaftNodeState)
    (req : AppendEntriesReq)
    (hterm : nd.raft.currentTerm ≤ req.term)
    (hprev : req.prevLogIndex = 0 ∨
      (req.prevLogIndex ≤ nd.raft.log.length ∧
       (nd.raft.log.getD (req.prevLogIndex - 1) defaultEntry).term
         = req.prevLogTerm))
    (hidx : ∀ j, j < req.entries.length →
      (req.entries.getD j defaultEntry).index = req.prevLogIndex + j + 1) :
    (handleAppendEntries nd req).2.2 = true ∧
    (handleAppendEntries nd req).1.raft.log.length
      = max nd.raft.log.length (req.prevLogIndex + req.entries.length) ∧
    (∀ j, (handleAppendEntries nd req).1.raft.log[j]? =
      if req.prevLogIndex ≤ j ∧ j < req.prevLogIndex + req.entries.length
      then req.entries[j - req.prevLogIndex]? else nd.raft.log[j]?) ∧
    (nd.raft.commitIndex < req.leaderCommit →
      (handleAppendEntries nd req).1.raft.commitIndex =
        min req.leaderCommit (handleAppendEntries nd req).1.raft.log.length) ∧
    (¬ nd.raft.commitIndex < req.leaderCommit →
      (handleAppendEntries nd req).1.raft.commitIndex
        = nd.raft.commitIndex) := by
  have hplen : req.prevLogIndex ≤ nd.raft.log.length := by
    rcases hprev with h | ⟨h, _⟩
    · omega
    · exact h
  by_cases hlt : nd.raft.currentTerm < req.term
  · have heq : handleAppendEntries nd req =
        appendPhase { nd with
          raft := { nd.raft with currentTerm := req.term, votedFor := none },
          role := .follower, leaderId := some req.leaderId } req := by
      by_cases hpz : 0 < req.prevLogIndex
      · rcases hprev with h | ⟨hple, hpterm⟩
        · omega
        · simp [handleAppendEntries, hlt, hpz, Nat.not_lt.mpr hple]
          intro hcon
          exact absurd (by simpa [List.getD] using hpterm) hcon
      · simp [handleAppendEntries, hlt, hpz]
    rw [heq]
    exact appendPhase_spec _ req hplen hidx
  · have heq : handleAppendEntries nd req =
        appendPhase { nd with
          role := .follower, leaderId := some req.leaderId } req := by
      by_cases hpz : 0 < req.prevLogIndex
      · rcases hprev with h | ⟨hple, hpterm⟩
        · omega
        · simp [handleAppendEntries, hlt, Nat.not_lt.mpr hterm, hpz,
            Nat.not_lt.mpr hple]
          intro hcon
          exact absurd (by simpa [List.getD] using hpterm) hcon
      · simp [handleAppendEntries, hlt, Nat.not_lt.mpr hterm, hpz]
    rw [heq]
    exact appendPhase_spec _ req hplen hidx

def c2Node : RaftNodeState :=
  ⟨⟨1, none,
    [⟨1, 1, "a"⟩, ⟨1, 2, "b"⟩, ⟨1, 3, "c"⟩, ⟨1, 4, "d"⟩, ⟨1, 5, "e"⟩],
    0, 0⟩, .follower, none⟩

def c2Req : AppendEntriesReq := ⟨1, 9, 2, 1, [⟨1, 3, "z"⟩], 5⟩

/-- Counterexample for C2 as frozen: the request is accepted, its last new
entry has index 3, yet the receiver sets `commit_index = 5` — the length
of its (longer) log — not `min(leader_commit, 3) = 3`. -/
theorem append_entries_commit_index_cex :
    (handleAppendEntries c2Node c2Req).2.2 = true ∧
    (c2Req.entries.getLast?.map (·.index)) = some 3 ∧
    (handleAppendEntries c2Node c2Req).1.raft.commitIndex = 5 ∧
    (handleAppendEntries c2Node c2Req).1.raft.commitIndex ≠
      min c2Req.leaderCommit 3 := by
  refine ⟨?_, ?_, ?_, ?_⟩ <;> decide

/-- Witness for C2 (amended) at a concrete accepted request. -/
theorem raft_append_entries_accept_witness :
    c2Node.raft.currentTerm ≤ c2Req.term ∧
    ((handleAppendEntries c2Node c2Req).2.2 = true ∧
     (handleAppendEntries c2Node c2Req).1.raft.log.length
       = max c2Node.raft.log.length
           (c2Req.prevLogIndex + c2Req.entries.length) ∧
     (∀ j, (handleAppendEntries c2Node c2Req).1.raft.log[j]? =
       if c2Req.prevLogIndex ≤ j ∧
           j < c2Req.prevLogIndex + c2Req.entries.length
       then c2Req.entries[j - c2Req.prevLogIndex]? else c2Node.raft.log[j]?) ∧
     (c2Node.raft.commitIndex < c2Req.leaderCommit →
       (handleAppendEntries c2Node c2Req).1.raft.commitIndex =
         min c2Req.leaderCommit
           (handleAppendEntries c2Node c2Req).1.raft.log.length) ∧
     (¬ c2Node.raft.commitIndex < c2Req.leaderCommit →
       (handleAppendEntries c2Node c2Req).1.raft.commitIndex
         = c2Node.raft.commitIndex)) :=
  ⟨by decide,
   raft_append_entries_accept c2Node c2Req (by decide)
     (Or.inr ⟨by decide, by decide⟩) (by decide)⟩

lemma voteLoop_no_higher (term : Nat) (responses : List (Option VoteResponse))
    (hno : ∀ r ∈ responses, ∀ v, r = some v → v.term ≤ term) :
    ∀ votes, voteLoop term responses votes
      = (votes + grantedCount responses, none) := by
  induction responses with
  | nil => intro votes; simp [voteLoop, grantedCount]
  | cons r rest ih =>
      intro votes
      have hrest : ∀ r' ∈ rest, ∀ v, r' = some v → v.term ≤ term :=
        fun r' hr' v hv => hno r' (List.mem_cons_of_mem _ hr') v hv
      cases r with
      | none =>
          rw [voteLoop, ih hrest votes]
          simp [grantedCount]
      | some v =>
          have hv : v.term ≤ term := hno (some v) (List.mem_cons_self _ _) v rfl
          rw [voteLoop]
          simp only [if_neg (by omega : ¬ term < v.term)]
          rw [ih hrest]
          cases hg : v.voteGranted <;>
            simp [grantedCount, hg, List.countP_cons] <;> omega

/-- C3 (amended): when no peer response carries a higher term, the
candidate becomes leader iff `1 + granted > numPeers / 2`, where
`numPeers = len(self.peers)` counts the *other* nodes only. With
`N = numPeers + 1` cluster nodes this equals a strict majority of `N`
when `N` is odd, but for even `N` it admits exactly `N / 2` votes. -/
theorem raft_election_majority (nd : RaftNodeState) (nodeId numPeers : Nat)
    (responses : List (Option VoteResponse))
    (hno : ∀ r ∈ responses, ∀ v, r = some v →
      v.term ≤ nd.raft.currentTerm + 1) :
    ((startElection nd nodeId numPeers responses).2 = true ↔
      numPeers / 2 < 1 + grantedCount responses) := by
  have hloop := voteLoop_no_higher (nd.raft.currentTerm + 1) responses
    (by simpa using hno) 1
  rw [startElection]
  simp only [hloop]
  by_cases hwin : numPeers / 2 < 1 + grantedCount responses
  · simp [hwin]
  · simp [hwin]

def c3Node : RaftNodeState := ⟨⟨0, none, [], 0, 0⟩, .follower, none⟩

def c3Responses : List (Option VoteResponse) :=
  [some ⟨1, true⟩, some ⟨1, false⟩, some ⟨1, false⟩]

/-- Counterexample for C3 as frozen: in a 4-node cluster (3 peers), a
candidate with 2 votes (self plus one peer) becomes leader, although
2 is not strictly more than N/2 = 2. -/
theorem election_even_cluster_cex :
    (startElection c3Node 0 3 c3Responses).2 = true ∧
    1 + grantedCount c3Responses = 2 ∧
    ¬ ((3 + 1) / 2 < 1 + grantedCount c3Responses) := by
  refine ⟨?_, ?_, ?_⟩ <;> decide

/-- Witness for C3 (amended) at the same concrete poll. -/
theorem raft_election_majority_witness :
    (∀ r ∈ c3Responses, ∀ v, r = some v →
      v.term ≤ c3Node.raft.currentTerm + 1) ∧
    ((startElection c3Node 0 3 c3Responses).2 = true ↔
      3 / 2 < 1 + grantedCount c3Responses) := by
  constructor
  · intro r hr v hv
    subst hv
    fin_cases hr <;> decide
  · exact raft_election_majority c3Node 0 3 c3Responses
      (by intro r hr v hv; subst hv; fin_cases hr <;> decide)
